import Mathlib

/-!
Verification of the Aegis bridge core, a shallow embedding of
src/aegis/runtime/aegis-api.js (the IIFE installed into the WebKit page).

The embedded fragment is the call-correlation and capability-gating layer:
the module-local counter `callbackId`, the two Maps `pendingCallbacks` and
`progressCallbacks`, the inbound entry points `window.__aegisResolve` and
`window.__aegisProgress`, the outbound paths `invoke`, `guardedInvoke` and
`invokeWithProgress`, the gate `isAllowed`, and the public `Aegis.invoke`.

Modelling decisions, each tied to the source:
* Payloads and delivery data are opaque to the bridge (it only forwards
  them), so the embedding is parameterised by a type `V` of structured
  values.
* A JS promise is identified by the callback id allocated for it.  Its
  settlement obeys first-resolution-wins semantics (later resolve/reject
  calls on a settled promise are ignored); the `settled` field records, per
  id, the outcome of the first settlement.  Promises returned already
  rejected by the gate (which never receive an id) are modelled by the
  result value `GuardResult.notAllowed`.
* The two Maps are modelled by their key sets (`List Nat` with Map.set /
  Map.delete semantics); the resolve/reject closures stored under a key are
  exactly the settle functions of the promise with that id, and the
  progress closure stored under a key is observed through the event
  `Event.progressInvoked`.
* `postMessage` of the serialized request is modelled by the event
  `Event.posted` carrying the structured message that the source passes to
  JSON.stringify.
* Channel availability (the `window.webkit.messageHandlers.aegis` chain
  being present) is a boolean parameter `avail`.
-/

namespace AegisBridge

/-- Settlement of a promise: resolve with data, or reject with an Error whose
message is the given string. -/
inductive Outcome (V : Type) where
  | success (data : V)
  | failure (error : String)
deriving DecidableEq

/-- The structured value handed to JSON.stringify and then to postMessage in
`invoke` and `invokeWithProgress`: `{action, payload, callbackId}`. -/
structure Message (V : Type) where
  action : String
  payload : V
  callbackId : Nat
deriving DecidableEq

/-- Observable interactions of one bridge operation: a postMessage to the
channel, or an invocation of a registered progress subscriber. -/
inductive Event (V : Type) where
  | posted (msg : Message V)
  | progressInvoked (id : Nat) (data : V)
deriving DecidableEq

/-- An inbound terminal response object as read by `window.__aegisResolve`:
fields `callbackId`, `success`, `data` (used when success) and `error`
(used when not). -/
structure TerminalDelivery (V : Type) where
  callbackId : Nat
  success : Bool
  data : V
  error : String
deriving DecidableEq

/-- The module-local mutable state of the IIFE: the counter `callbackId`
(line 15), the key set of `pendingCallbacks` (line 16), the key set of
`progressCallbacks` (line 17), and the first-settlement record of every
promise identified by an allocated id. -/
structure BridgeState (V : Type) where
  callbackId : Nat
  pendingIds : List Nat
  progressIds : List Nat
  settled : List (Nat × Outcome V)
deriving DecidableEq

/-- The Map.has test on a key set. -/
def hasKey : List Nat → Nat → Bool
  | [], _ => false
  | x :: xs, id => decide (x = id) || hasKey xs id

/-- The Map.delete effect on a key set. -/
def removeKey : List Nat → Nat → List Nat
  | [], _ => []
  | x :: xs, id => if x = id then removeKey xs id else x :: removeKey xs id

/-- The Map.set effect on a key set: the key is present afterwards, and any
previous binding under it is replaced. -/
def mapInsert (l : List Nat) (id : Nat) : List Nat :=
  id :: removeKey l id

/-- Lookup in an association list with Nat keys. -/
def lookupKey {A : Type} : List (Nat × A) → Nat → Option A
  | [], _ => none
  | p :: ps, id => if p.1 = id then some p.2 else lookupKey ps id

/-- The recorded settlement of the promise with the given id, if any. -/
def lookupSettled {V : Type} (s : BridgeState V) (id : Nat) : Option (Outcome V) :=
  lookupKey s.settled id

/-- Settling the promise with the given id: JS promises ignore every
resolve/reject after the first, so an already settled promise is unchanged. -/
def settleFuture {V : Type} (s : BridgeState V) (id : Nat) (o : Outcome V) :
    BridgeState V :=
  if (lookupSettled s id).isSome then s
  else { s with settled := (id, o) :: s.settled }

/-- Embeds `invoke` (aegis-api.js lines 48 to 66).  It allocates
`id = ++callbackId`, stores the resolve/reject pair under `id` in
`pendingCallbacks`, and then either posts the message (channel available) or
rejects the new promise with Error("Aegis bridge not available") - without
removing the registry entry. -/
def invoke {V : Type} (avail : Bool) (action : String) (payload : V)
    (s : BridgeState V) : BridgeState V × List (Event V) :=
  let id := s.callbackId + 1
  let s1 : BridgeState V :=
    { s with callbackId := id, pendingIds := mapInsert s.pendingIds id }
  if avail then
    (s1, [Event.posted ⟨action, payload, id⟩])
  else
    (settleFuture s1 id (Outcome.failure "Aegis bridge not available"), [])

/-- The first segment of an action name: embeds the JS expression
api.split(".")[0], the prefix of the string before its first dot (the whole
string when it has no dot). -/
def firstSegment (api : String) : String :=
  String.mk (api.toList.takeWhile (fun c => c ≠ '.'))

/-- Embeds `isAllowed` (lines 71 to 79).  `cfg = none` models
window.__aegisAllowedAPIs being unset, in which case the JS reads the
default list containing only the wildcard. -/
def isAllowed (cfg : Option (List String)) (api : String) : Bool :=
  let allowed := cfg.getD ["*"]
  if allowed.contains "*" then true
  else if allowed.contains api then true
  else allowed.contains (firstSegment api)

/-- The value a guarded entry point returns to its caller: either a promise
rejected on the spot with the not-allowed Error (never registered, no id),
or the pending promise tracked under the allocated callback id. -/
inductive GuardResult where
  | notAllowed (action : String)
  | call (id : Nat)
deriving DecidableEq

/-- Embeds the closure produced by `guardedInvoke` (lines 84 to 91) applied
to a payload: gate first, and only on success fall through to `invoke`. -/
def guardedInvoke {V : Type} (cfg : Option (List String)) (avail : Bool)
    (action : String) (payload : V) (s : BridgeState V) :
    BridgeState V × List (Event V) × GuardResult :=
  if isAllowed cfg action then
    let r := invoke avail action payload s
    (r.1, r.2, GuardResult.call (s.callbackId + 1))
  else
    (s, [], GuardResult.notAllowed action)

/-- Embeds `invokeWithProgress` (lines 99 to 126).  `hasProgress` models the
test that onProgress was supplied and is a function.  On the unavailable
channel path the promise is rejected but, as in `invoke`, neither Map entry
is removed. -/
def invokeWithProgress {V : Type} (cfg : Option (List String)) (avail : Bool)
    (action : String) (payload : V) (hasProgress : Bool) (s : BridgeState V) :
    BridgeState V × List (Event V) × GuardResult :=
  if isAllowed cfg action then
    let id := s.callbackId + 1
    let s1 : BridgeState V :=
      { s with callbackId := id, pendingIds := mapInsert s.pendingIds id }
    let s2 : BridgeState V :=
      if hasProgress then { s1 with progressIds := mapInsert s1.progressIds id }
      else s1
    if avail then
      (s2, [Event.posted ⟨action, payload, id⟩], GuardResult.call id)
    else
      (settleFuture s2 id (Outcome.failure "Aegis bridge not available"), [],
        GuardResult.call id)
  else
    (s, [], GuardResult.notAllowed action)

/-- The outcome a terminal delivery applies: resolve with its data when
success is true, reject with Error(response.error) otherwise. -/
def terminalOutcome {V : Type} (r : TerminalDelivery V) : Outcome V :=
  if r.success then Outcome.success r.data else Outcome.failure r.error

/-- Embeds `window.__aegisResolve` (lines 22 to 33): look the id up in
`pendingCallbacks`; if absent do nothing; if present delete the id from both
Maps and then settle the promise with the outcome of the delivery. -/
def aegisResolve {V : Type} (s : BridgeState V) (r : TerminalDelivery V) :
    BridgeState V :=
  if hasKey s.pendingIds r.callbackId then
    let s1 : BridgeState V :=
      { s with pendingIds := removeKey s.pendingIds r.callbackId,
               progressIds := removeKey s.progressIds r.callbackId }
    settleFuture s1 r.callbackId (terminalOutcome r)
  else s

/-- Embeds `window.__aegisProgress` (lines 38 to 43): look the id up in
`progressCallbacks`; if present invoke the stored subscriber with the
delivered data (recorded as an event), otherwise do nothing.  The registry
state is never modified. -/
def aegisProgress {V : Type} (s : BridgeState V) (id : Nat) (data : V) :
    BridgeState V × List (Event V) :=
  if hasKey s.progressIds id then (s, [Event.progressInvoked id data])
  else (s, [])

/-- Embeds the public `Aegis.invoke` (lines 598 to 605): when a custom
handler is registered under the action it is awaited instead and the bridge
is not touched (the handler body is outside the embedded fragment);
otherwise it falls back to the ungated internal `invoke`.  The third
component is the allocated callback id, when one is allocated. -/
def publicInvoke {V : Type} (handlers : List String) (avail : Bool)
    (action : String) (payload : V) (s : BridgeState V) :
    BridgeState V × List (Event V) × Option Nat :=
  if handlers.contains action then (s, [], none)
  else
    let r := invoke avail action payload s
    (r.1, r.2, some (s.callbackId + 1))

/-- The state of the IIFE right after it runs: counter 0, both Maps empty,
no promise settled. -/
def initialState {V : Type} : BridgeState V :=
  { callbackId := 0, pendingIds := [], progressIds := [], settled := [] }

/-- One bridge operation, for stating properties of whole runs. -/
inductive Op (V : Type) where
  | opInvoke (avail : Bool) (action : String) (payload : V)
  | opGuarded (cfg : Option (List String)) (avail : Bool) (action : String)
      (payload : V)
  | opWithProgress (cfg : Option (List String)) (avail : Bool) (action : String)
      (payload : V) (hasProgress : Bool)
  | opPublic (handlers : List String) (avail : Bool) (action : String)
      (payload : V)
  | opResolve (r : TerminalDelivery V)
  | opProgress (id : Nat) (data : V)
deriving DecidableEq

/-- The state transformer of one operation. -/
def step {V : Type} : Op V → BridgeState V → BridgeState V
  | Op.opInvoke a act p, s => (invoke a act p s).1
  | Op.opGuarded c a act p, s => (guardedInvoke c a act p s).1
  | Op.opWithProgress c a act p hp, s => (invokeWithProgress c a act p hp s).1
  | Op.opPublic h a act p, s => (publicInvoke h a act p s).1
  | Op.opResolve r, s => aegisResolve s r
  | Op.opProgress id d, s => (aegisProgress s id d).1

/-- The callback id an operation allocates with ++callbackId in the given
state, when it allocates one (gate passed, no custom handler). -/
def allocates {V : Type} : Op V → BridgeState V → Option Nat
  | Op.opInvoke _ _ _, s => some (s.callbackId + 1)
  | Op.opGuarded c _ act _, s =>
      if isAllowed c act then some (s.callbackId + 1) else none
  | Op.opWithProgress c _ act _ _, s =>
      if isAllowed c act then some (s.callbackId + 1) else none
  | Op.opPublic h _ act _, s =>
      if h.contains act then none else some (s.callbackId + 1)
  | Op.opResolve _, _ => none
  | Op.opProgress _ _, _ => none

/-- Running a list of operations in order. -/
def run {V : Type} (ops : List (Op V)) (s : BridgeState V) : BridgeState V :=
  ops.foldl (fun st op => step op st) s

/-- Every key of the list is at most the bound. -/
def allLe : List Nat → Nat → Bool
  | [], _ => true
  | x :: xs, n => decide (x ≤ n) && allLe xs n

/-- The counter invariant of reachable bridge states: every key of either
Map was allocated by the counter, hence is at most its current value. -/
def goodCounter {V : Type} (s : BridgeState V) : Bool :=
  allLe s.pendingIds s.callbackId && allLe s.progressIds s.callbackId

section Helpers

variable {V : Type}

theorem hasKey_removeKey_self (l : List Nat) (id : Nat) :
    hasKey (removeKey l id) id = false := by
  induction l with
  | nil => rfl
  | cons x xs ih =>
    by_cases hx : x = id
    · simp [removeKey, hx, ih]
    · simp [removeKey, hasKey, hx, ih]

theorem allLe_mono {l : List Nat} {n m : Nat} (h : allLe l n = true)
    (hnm : n ≤ m) : allLe l m = true := by
  induction l with
  | nil => rfl
  | cons x xs ih =>
    simp only [allLe, Bool.and_eq_true, decide_eq_true_eq] at h ⊢
    exact ⟨le_trans h.1 hnm, ih h.2⟩

theorem allLe_removeKey {l : List Nat} {n : Nat} (h : allLe l n = true)
    (id : Nat) : allLe (removeKey l id) n = true := by
  induction l with
  | nil => rfl
  | cons x xs ih =>
    simp only [allLe, Bool.and_eq_true, decide_eq_true_eq] at h
    by_cases hx : x = id
    · simp [removeKey, hx, ih h.2]
    · simp only [removeKey, hx, if_false, allLe, Bool.and_eq_true,
        decide_eq_true_eq]
      exact ⟨h.1, ih h.2⟩

theorem allLe_mapInsert {l : List Nat} {n : Nat} (h : allLe l n = true)
    {id : Nat} (hid : id ≤ n) : allLe (mapInsert l id) n = true := by
  simp only [mapInsert, allLe, Bool.and_eq_true, decide_eq_true_eq]
  exact ⟨hid, allLe_removeKey h id⟩

theorem hasKey_fresh {l : List Nat} {n : Nat} (h : allLe l n = true) :
    hasKey l (n + 1) = false := by
  induction l with
  | nil => rfl
  | cons x xs ih =>
    simp only [allLe, Bool.and_eq_true, decide_eq_true_eq] at h
    have hx : x ≠ n + 1 := by omega
    simp [hasKey, hx, ih h.2]

theorem settleFuture_callbackId (s : BridgeState V) (id : Nat) (o : Outcome V) :
    (settleFuture s id o).callbackId = s.callbackId := by
  unfold settleFuture; split <;> rfl

theorem settleFuture_pendingIds (s : BridgeState V) (id : Nat) (o : Outcome V) :
    (settleFuture s id o).pendingIds = s.pendingIds := by
  unfold settleFuture; split <;> rfl

theorem settleFuture_progressIds (s : BridgeState V) (id : Nat) (o : Outcome V) :
    (settleFuture s id o).progressIds = s.progressIds := by
  unfold settleFuture; split <;> rfl

theorem invoke_callbackId (avail : Bool) (action : String) (payload : V)
    (s : BridgeState V) :
    ((invoke avail action payload s).1).callbackId = s.callbackId + 1 := by
  cases avail <;> simp [invoke, settleFuture_callbackId]

theorem invoke_pendingIds (avail : Bool) (action : String) (payload : V)
    (s : BridgeState V) :
    ((invoke avail action payload s).1).pendingIds =
      mapInsert s.pendingIds (s.callbackId + 1) := by
  cases avail <;> simp [invoke, settleFuture_pendingIds]

theorem invoke_progressIds (avail : Bool) (action : String) (payload : V)
    (s : BridgeState V) :
    ((invoke avail action payload s).1).progressIds = s.progressIds := by
  cases avail <;> simp [invoke, settleFuture_progressIds]

theorem invokeWithProgress_callbackId (cfg : Option (List String)) (avail : Bool)
    (action : String) (payload : V) (hp : Bool) (s : BridgeState V)
    (hg : isAllowed cfg action = true) :
    ((invokeWithProgress cfg avail action payload hp s).1).callbackId =
      s.callbackId + 1 := by
  cases avail <;> cases hp <;>
    simp [invokeWithProgress, hg, settleFuture_callbackId]

theorem invokeWithProgress_pendingIds (cfg : Option (List String)) (avail : Bool)
    (action : String) (payload : V) (hp : Bool) (s : BridgeState V)
    (hg : isAllowed cfg action = true) :
    ((invokeWithProgress cfg avail action payload hp s).1).pendingIds =
      mapInsert s.pendingIds (s.callbackId + 1) := by
  cases avail <;> cases hp <;>
    simp [invokeWithProgress, hg, settleFuture_pendingIds]

theorem invokeWithProgress_progressIds (cfg : Option (List String)) (avail : Bool)
    (action : String) (payload : V) (hp : Bool) (s : BridgeState V)
    (hg : isAllowed cfg action = true) :
    ((invokeWithProgress cfg avail action payload hp s).1).progressIds =
      (if hp then mapInsert s.progressIds (s.callbackId + 1)
       else s.progressIds) := by
  cases avail <;> cases hp <;>
    simp [invokeWithProgress, hg, settleFuture_progressIds]

theorem aegisResolve_callbackId (s : BridgeState V) (r : TerminalDelivery V) :
    (aegisResolve s r).callbackId = s.callbackId := by
  unfold aegisResolve
  split
  · simp [settleFuture_callbackId]
  · rfl

theorem aegisProgress_fst (s : BridgeState V) (id : Nat) (data : V) :
    (aegisProgress s id data).1 = s := by
  unfold aegisProgress; split <;> rfl

theorem step_callbackId_mono (op : Op V) (s : BridgeState V) :
    s.callbackId ≤ (step op s).callbackId := by
  cases op with
  | opInvoke a act p => simp [step, invoke_callbackId]
  | opGuarded c a act p =>
    by_cases hg : isAllowed c act
    · simp [step, guardedInvoke, hg, invoke_callbackId]
    · simp [step, guardedInvoke, hg]
  | opWithProgress c a act p hp =>
    by_cases hg : isAllowed c act
    · simp [step, invokeWithProgress_callbackId c a act p hp s hg]
    · simp [step, invokeWithProgress, hg]
  | opPublic h a act p =>
    by_cases hh : act ∈ h
    · simp [step, publicInvoke, hh]
    · simp [step, publicInvoke, hh, invoke_callbackId]
  | opResolve r => simp [step, aegisResolve_callbackId]
  | opProgress id d => simp [step, aegisProgress_fst]

theorem allocates_step {op : Op V} {s : BridgeState V} {id : Nat}
    (h : allocates op s = some id) :
    id = s.callbackId + 1 ∧ (step op s).callbackId = id := by
  cases op with
  | opInvoke a act p =>
    simp only [allocates, Option.some.injEq] at h
    exact ⟨h.symm, by simp [step, invoke_callbackId, h]⟩
  | opGuarded c a act p =>
    by_cases hg : isAllowed c act
    · simp only [allocates, hg, if_true, Option.some.injEq] at h
      exact ⟨h.symm, by simp [step, guardedInvoke, hg, invoke_callbackId, h]⟩
    · simp [allocates, hg] at h
  | opWithProgress c a act p hp =>
    by_cases hg : isAllowed c act
    · simp only [allocates, hg, if_true, Option.some.injEq] at h
      refine ⟨h.symm, ?_⟩
      simp [step, invokeWithProgress_callbackId c a act p hp s hg, h]
    · simp [allocates, hg] at h
  | opPublic hs a act p =>
    by_cases hh : act ∈ hs
    · simp [allocates, hh] at h
    · simp [allocates, hh] at h
      exact ⟨h.symm, by simp [step, publicInvoke, hh, invoke_callbackId, h]⟩
  | opResolve r => simp [allocates] at h
  | opProgress i d => simp [allocates] at h

theorem run_cons (op : Op V) (ops : List (Op V)) (s : BridgeState V) :
    run (op :: ops) s = run ops (step op s) := rfl

theorem hasKey_mapInsert_self (l : List Nat) (id : Nat) :
    hasKey (mapInsert l id) id = true := by
  simp [mapInsert, hasKey]

theorem aegisResolve_not_pending (s : BridgeState V) (r : TerminalDelivery V)
    (h : hasKey s.pendingIds r.callbackId = false) : aegisResolve s r = s := by
  simp [aegisResolve, h]

theorem aegisProgress_not_subscribed (s : BridgeState V) (id : Nat) (d : V)
    (h : hasKey s.progressIds id = false) :
    aegisProgress s id d = (s, []) := by
  simp [aegisProgress, h]

theorem lookupSettled_settleFuture_self {s : BridgeState V} {id : Nat}
    (h : lookupSettled s id = none) (o : Outcome V) :
    lookupSettled (settleFuture s id o) id = some o := by
  have h2 : lookupKey s.settled id = none := h
  simp [settleFuture, lookupSettled, h2, lookupKey]

theorem goodCounter_invoke (avail : Bool) (action : String) (payload : V)
    (s : BridgeState V) (h : goodCounter s = true) :
    goodCounter ((invoke avail action payload s).1) = true := by
  simp only [goodCounter, Bool.and_eq_true] at h ⊢
  rw [invoke_callbackId, invoke_pendingIds, invoke_progressIds]
  exact ⟨allLe_mapInsert (allLe_mono h.1 (Nat.le_succ _)) (le_refl _),
    allLe_mono h.2 (Nat.le_succ _)⟩

theorem goodCounter_invokeWithProgress (cfg : Option (List String))
    (avail : Bool) (action : String) (payload : V) (hp : Bool)
    (s : BridgeState V) (h : goodCounter s = true) :
    goodCounter ((invokeWithProgress cfg avail action payload hp s).1) = true := by
  by_cases hg : isAllowed cfg action
  · simp only [goodCounter, Bool.and_eq_true] at h ⊢
    rw [invokeWithProgress_callbackId cfg avail action payload hp s hg,
      invokeWithProgress_pendingIds cfg avail action payload hp s hg,
      invokeWithProgress_progressIds cfg avail action payload hp s hg]
    refine ⟨allLe_mapInsert (allLe_mono h.1 (Nat.le_succ _)) (le_refl _), ?_⟩
    cases hp
    · simpa using allLe_mono h.2 (Nat.le_succ _)
    · simp only [if_true]
      exact allLe_mapInsert (allLe_mono h.2 (Nat.le_succ _)) (le_refl _)
  · simpa [invokeWithProgress, hg] using h

theorem goodCounter_aegisResolve (s : BridgeState V) (r : TerminalDelivery V)
    (h : goodCounter s = true) : goodCounter (aegisResolve s r) = true := by
  simp only [goodCounter, Bool.and_eq_true] at h ⊢
  unfold aegisResolve
  split
  · rw [settleFuture_pendingIds, settleFuture_progressIds,
      settleFuture_callbackId]
    exact ⟨allLe_removeKey h.1 _, allLe_removeKey h.2 _⟩
  · exact h

theorem goodCounter_step (op : Op V) (s : BridgeState V)
    (h : goodCounter s = true) : goodCounter (step op s) = true := by
  cases op with
  | opInvoke a act p => exact goodCounter_invoke a act p s h
  | opGuarded c a act p =>
    by_cases hg : isAllowed c act
    · have e : step (Op.opGuarded c a act p) s = (invoke a act p s).1 := by
        simp [step, guardedInvoke, hg]
      rw [e]; exact goodCounter_invoke a act p s h
    · have e : step (Op.opGuarded c a act p) s = s := by
        simp [step, guardedInvoke, hg]
      rw [e]; exact h
  | opWithProgress c a act p hp =>
    exact goodCounter_invokeWithProgress c a act p hp s h
  | opPublic hs a act p =>
    by_cases hh : act ∈ hs
    · have e : step (Op.opPublic hs a act p) s = s := by
        simp [step, publicInvoke, hh]
      rw [e]; exact h
    · have e : step (Op.opPublic hs a act p) s = (invoke a act p s).1 := by
        simp [step, publicInvoke, hh]
      rw [e]; exact goodCounter_invoke a act p s h
  | opResolve r => exact goodCounter_aegisResolve s r h
  | opProgress id d =>
    have e : step (Op.opProgress id d) s = s := aegisProgress_fst s id d
    rw [e]; exact h

theorem run_callbackId_mono (ops : List (Op V)) (s : BridgeState V) :
    s.callbackId ≤ (run ops s).callbackId := by
  induction ops generalizing s with
  | nil => exact le_refl _
  | cons op ops ih =>
    exact le_trans (step_callbackId_mono op s) (ih (step op s))

end Helpers

section Claims

variable {V : Type}

/-- Claim C1: for every action not covered by the configured allow tokens -
no wildcard token present, the action absent verbatim, and its first
segment absent - a guarded invocation (guardedInvoke or invokeWithProgress)
returns an already rejected future, performs no postMessage to the channel,
does not increment the callbackId counter, and creates no entry in
pendingCallbacks or progressCallbacks: the bridge state comes back
unchanged, with an empty event list and the not-allowed rejection. -/
theorem blocked_action_has_no_effect (tokens : List String) (avail : Bool)
    (action : String) (payload : V) (hasProgress : Bool) (s : BridgeState V)
    (hw : "*" ∉ tokens) (hv : action ∉ tokens)
    (hn : firstSegment action ∉ tokens) :
    guardedInvoke (some tokens) avail action payload s =
      (s, [], GuardResult.notAllowed action)
    ∧ invokeWithProgress (some tokens) avail action payload hasProgress s =
      (s, [], GuardResult.notAllowed action) := by
  have hg : isAllowed (some tokens) action = false := by
    simp [isAllowed, hw, hv, hn]
  exact ⟨by simp [guardedInvoke, hg], by simp [invokeWithProgress, hg]⟩

/-- Witness for claim C1 at allow tokens ["read"] and action "write". -/
theorem blocked_action_has_no_effect_witness :
    guardedInvoke (some ["read"]) true "write" (0 : Nat) initialState =
      (initialState, [], GuardResult.notAllowed "write")
    ∧ invokeWithProgress (some ["read"]) true "write" (0 : Nat) true
        initialState = (initialState, [], GuardResult.notAllowed "write") :=
  blocked_action_has_no_effect ["read"] true "write" 0 true initialState
    (by decide) (by decide) (by decide)

/-- Claim C2 counterexample: with the channel unavailable, invoking the
permitted action "read" from the initial state allocates id 1 and rejects
the future, but afterwards the pendingCallbacks registry still contains the
entry for id 1, and the rejection message is "Aegis bridge not available"
rather than "bridge not available" - so the claim, which demands that the
registry contain no entry for that id, is false on the code. -/
theorem unavailable_channel_orphan_cex :
    (guardedInvoke (some ["read"]) false "read" (0 : Nat) initialState).2.2 =
      GuardResult.call 1
    ∧ lookupSettled
        (guardedInvoke (some ["read"]) false "read" (0 : Nat) initialState).1
        1 = some (Outcome.failure "Aegis bridge not available")
    ∧ hasKey
        (BridgeState.pendingIds
          (guardedInvoke (some ["read"]) false "read" (0 : Nat)
            initialState).1) 1 = true := by decide

/-- Claim C2 (amended): for every permitted action, if the channel is
unavailable when invoke attempts to send, the returned future settles to
Failure("Aegis bridge not available"), nothing is posted, and afterwards
the registry STILL contains the pendingCallbacks entry for the id that was
allocated for the call - the entry is orphaned, not removed; an
invokeWithProgress call additionally leaves its progress subscriber entry
registered. -/
theorem unavailable_channel_settles_and_orphans (cfg : Option (List String))
    (action : String) (payload : V) (s : BridgeState V)
    (hg : isAllowed cfg action = true)
    (hu : lookupSettled s (s.callbackId + 1) = none) :
    (guardedInvoke cfg false action payload s).2.1 = []
    ∧ (guardedInvoke cfg false action payload s).2.2 =
        GuardResult.call (s.callbackId + 1)
    ∧ lookupSettled (guardedInvoke cfg false action payload s).1
        (s.callbackId + 1) = some (Outcome.failure "Aegis bridge not available")
    ∧ hasKey (guardedInvoke cfg false action payload s).1.pendingIds
        (s.callbackId + 1) = true
    ∧ hasKey (invokeWithProgress cfg false action payload true s).1.pendingIds
        (s.callbackId + 1) = true
    ∧ hasKey (invokeWithProgress cfg false action payload true s).1.progressIds
        (s.callbackId + 1) = true := by
  have einv : invoke false action payload s =
      (settleFuture
        { s with callbackId := s.callbackId + 1,
                 pendingIds := mapInsert s.pendingIds (s.callbackId + 1) }
        (s.callbackId + 1) (Outcome.failure "Aegis bridge not available"),
        []) := by
    simp [invoke]
  have eg : guardedInvoke cfg false action payload s =
      ((invoke false action payload s).1, (invoke false action payload s).2,
        GuardResult.call (s.callbackId + 1)) := by
    simp [guardedInvoke, hg]
  have ewp : invokeWithProgress cfg false action payload true s =
      (settleFuture
        { s with callbackId := s.callbackId + 1,
                 pendingIds := mapInsert s.pendingIds (s.callbackId + 1),
                 progressIds := mapInsert s.progressIds (s.callbackId + 1) }
        (s.callbackId + 1) (Outcome.failure "Aegis bridge not available"),
        [], GuardResult.call (s.callbackId + 1)) := by
    simp [invokeWithProgress, hg]
  have hu2 : lookupSettled
      { s with callbackId := s.callbackId + 1,
               pendingIds := mapInsert s.pendingIds (s.callbackId + 1) }
      (s.callbackId + 1) = none := hu
  refine ⟨?_, ?_, ?_, ?_, ?_, ?_⟩
  · rw [eg, einv]
  · rw [eg]
  · rw [eg, einv]
    exact lookupSettled_settleFuture_self hu2 _
  · rw [eg, einv, settleFuture_pendingIds]
    exact hasKey_mapInsert_self _ _
  · rw [ewp]
    rw [settleFuture_pendingIds]
    exact hasKey_mapInsert_self _ _
  · rw [ewp]
    rw [settleFuture_progressIds]
    exact hasKey_mapInsert_self _ _

/-- Witness for claim C2 (amended) at allow tokens ["read"], action "read",
from the initial state. -/
theorem unavailable_channel_settles_and_orphans_witness :
    (guardedInvoke (some ["read"]) false "read" (0 : Nat) initialState).2.1 = []
    ∧ (guardedInvoke (some ["read"]) false "read" (0 : Nat) initialState).2.2 =
        GuardResult.call 1
    ∧ lookupSettled
        (guardedInvoke (some ["read"]) false "read" (0 : Nat) initialState).1
        1 = some (Outcome.failure "Aegis bridge not available")
    ∧ hasKey
        (BridgeState.pendingIds
          (guardedInvoke (some ["read"]) false "read" (0 : Nat)
            initialState).1) 1 = true
    ∧ hasKey
        (invokeWithProgress (some ["read"]) false "read" (0 : Nat) true
          initialState).1.pendingIds 1 = true
    ∧ hasKey
        (invokeWithProgress (some ["read"]) false "read" (0 : Nat) true
          initialState).1.progressIds 1 = true :=
  unavailable_channel_settles_and_orphans (some ["read"]) "read" 0
    initialState (by decide) (by decide)

/-- Claim C3: the public Aegis.invoke, on an action with no registered
custom handler, falls back to the ungated internal invoke: it allocates a
callback id, registers the pending callback, and posts the request to the
channel without consulting the allow list - here even under a configuration
for which isAllowed of the action is false. -/
theorem public_invoke_bypasses_gate (cfg : Option (List String))
    (handlers : List String) (action : String) (payload : V)
    (s : BridgeState V)
    (hh : action ∉ handlers)
    (_hg : isAllowed cfg action = false) :
    publicInvoke handlers true action payload s =
      ({ s with callbackId := s.callbackId + 1,
                pendingIds := mapInsert s.pendingIds (s.callbackId + 1) },
       [Event.posted ⟨action, payload, s.callbackId + 1⟩],
       some (s.callbackId + 1))
    ∧ hasKey (publicInvoke handlers true action payload s).1.pendingIds
        (s.callbackId + 1) = true := by
  have e : publicInvoke handlers true action payload s =
      ({ s with callbackId := s.callbackId + 1,
                pendingIds := mapInsert s.pendingIds (s.callbackId + 1) },
       [Event.posted ⟨action, payload, s.callbackId + 1⟩],
       some (s.callbackId + 1)) := by
    simp [publicInvoke, hh, invoke]
  refine ⟨e, ?_⟩
  rw [e]
  exact hasKey_mapInsert_self _ _

/-- Witness for claim C3 at empty handler table, allow tokens ["read"] (so
"write" is not permitted), action "write", from the initial state. -/
theorem public_invoke_bypasses_gate_witness :
    publicInvoke [] true "write" (0 : Nat) initialState =
      ({ callbackId := 1, pendingIds := [1], progressIds := [],
         settled := [] },
       [Event.posted ⟨"write", 0, 1⟩], some 1)
    ∧ hasKey (publicInvoke [] true "write" (0 : Nat) initialState).1.pendingIds
        1 = true :=
  public_invoke_bypasses_gate (some ["read"]) [] "write" 0 initialState
    (by decide) (by decide)

/-- Claim C4: a terminal delivery settles the future registered under its
id at most once.  In a state where the id is registered and its future not
yet settled, the first acted-on terminal delivery settles the future with
the outcome of the delivery and removes the id from both registries; any
subsequent terminal or progress delivery for that id leaves the state
unchanged and invokes nothing; and a terminal delivery for an id that is
not registered at all (never registered, or already resolved) is a no-op -
the handler is total, so no exception is raised. -/
theorem terminal_delivery_idempotent (s t : BridgeState V) (id : Nat)
    (r r2 r3 : TerminalDelivery V) (d : V)
    (hp : hasKey s.pendingIds id = true)
    (hu : lookupSettled s id = none)
    (hr : r.callbackId = id) (hr2 : r2.callbackId = id)
    (ht : hasKey t.pendingIds r3.callbackId = false) :
    lookupSettled (aegisResolve s r) id = some (terminalOutcome r)
    ∧ hasKey (aegisResolve s r).pendingIds id = false
    ∧ hasKey (aegisResolve s r).progressIds id = false
    ∧ aegisResolve (aegisResolve s r) r2 = aegisResolve s r
    ∧ aegisProgress (aegisResolve s r) id d = (aegisResolve s r, [])
    ∧ aegisResolve t r3 = t := by
  have e : aegisResolve s r =
      settleFuture
        { s with pendingIds := removeKey s.pendingIds id,
                 progressIds := removeKey s.progressIds id }
        id (terminalOutcome r) := by
    subst hr
    simp [aegisResolve, hp]
  have hu2 : lookupSettled
      { s with pendingIds := removeKey s.pendingIds id,
               progressIds := removeKey s.progressIds id } id = none := hu
  have h2 : hasKey (aegisResolve s r).pendingIds id = false := by
    rw [e, settleFuture_pendingIds]
    exact hasKey_removeKey_self _ _
  have h3 : hasKey (aegisResolve s r).progressIds id = false := by
    rw [e, settleFuture_progressIds]
    exact hasKey_removeKey_self _ _
  refine ⟨?_, h2, h3, ?_, ?_, ?_⟩
  · rw [e]
    exact lookupSettled_settleFuture_self hu2 _
  · exact aegisResolve_not_pending _ _ (by rw [hr2]; exact h2)
  · exact aegisProgress_not_subscribed _ _ _ h3
  · exact aegisResolve_not_pending t r3 ht

/-- Witness for claim C4 at a state with id 7 pending with a progress
subscriber, a success delivery for 7, a duplicate delivery, a progress
delivery, and a delivery for the unregistered id 999. -/
theorem terminal_delivery_idempotent_witness :
    lookupSettled
        (aegisResolve (⟨10, [7], [7], []⟩ : BridgeState Nat) ⟨7, true, 5, ""⟩)
        7 = some (terminalOutcome ⟨7, true, 5, ""⟩)
    ∧ hasKey (aegisResolve (⟨10, [7], [7], []⟩ : BridgeState Nat)
        ⟨7, true, 5, ""⟩).pendingIds 7 = false
    ∧ hasKey (aegisResolve (⟨10, [7], [7], []⟩ : BridgeState Nat)
        ⟨7, true, 5, ""⟩).progressIds 7 = false
    ∧ aegisResolve (aegisResolve (⟨10, [7], [7], []⟩ : BridgeState Nat)
        ⟨7, true, 5, ""⟩) ⟨7, false, 0, "dup"⟩ =
        aegisResolve (⟨10, [7], [7], []⟩ : BridgeState Nat) ⟨7, true, 5, ""⟩
    ∧ aegisProgress (aegisResolve (⟨10, [7], [7], []⟩ : BridgeState Nat)
        ⟨7, true, 5, ""⟩) 7 3 =
        (aegisResolve (⟨10, [7], [7], []⟩ : BridgeState Nat) ⟨7, true, 5, ""⟩,
          [])
    ∧ aegisResolve (⟨0, [], [], []⟩ : BridgeState Nat) ⟨999, true, 0, ""⟩ =
        (⟨0, [], [], []⟩ : BridgeState Nat) :=
  terminal_delivery_idempotent ⟨10, [7], [7], []⟩ ⟨0, [], [], []⟩ 7
    ⟨7, true, 5, ""⟩ ⟨7, false, 0, "dup"⟩ ⟨999, true, 0, ""⟩ 3
    (by decide) (by decide) rfl rfl (by decide)

/-- Claim C7: a terminal delivery for an id present in the registry removes
both the pending call and any progress subscriber for that id, and settles
the not-yet-settled future exactly once - with the data of the delivery
when success is true, and with a failure carrying the counterpart supplied
error string verbatim when success is false. -/
theorem resolve_settles_with_delivery (s : BridgeState V) (id : Nat)
    (r : TerminalDelivery V)
    (hp : hasKey s.pendingIds id = true)
    (hu : lookupSettled s id = none)
    (hr : r.callbackId = id) :
    hasKey (aegisResolve s r).pendingIds id = false
    ∧ hasKey (aegisResolve s r).progressIds id = false
    ∧ lookupSettled (aegisResolve s r) id =
        some (if r.success then Outcome.success r.data
              else Outcome.failure r.error) := by
  have e : aegisResolve s r =
      settleFuture
        { s with pendingIds := removeKey s.pendingIds id,
                 progressIds := removeKey s.progressIds id }
        id (terminalOutcome r) := by
    subst hr
    simp [aegisResolve, hp]
  have hu2 : lookupSettled
      { s with pendingIds := removeKey s.pendingIds id,
               progressIds := removeKey s.progressIds id } id = none := hu
  refine ⟨?_, ?_, ?_⟩
  · rw [e, settleFuture_pendingIds]
    exact hasKey_removeKey_self _ _
  · rw [e, settleFuture_progressIds]
    exact hasKey_removeKey_self _ _
  · rw [e]
    exact lookupSettled_settleFuture_self hu2 _

/-- Witness for claim C7 at id 2 with a failure delivery carrying the error
string "boom". -/
theorem resolve_settles_with_delivery_witness :
    hasKey (aegisResolve (⟨3, [2], [2], []⟩ : BridgeState Nat)
        ⟨2, false, 0, "boom"⟩).pendingIds 2 = false
    ∧ hasKey (aegisResolve (⟨3, [2], [2], []⟩ : BridgeState Nat)
        ⟨2, false, 0, "boom"⟩).progressIds 2 = false
    ∧ lookupSettled (aegisResolve (⟨3, [2], [2], []⟩ : BridgeState Nat)
        ⟨2, false, 0, "boom"⟩) 2 =
        some (if false then Outcome.success 0 else Outcome.failure "boom") :=
  resolve_settles_with_delivery ⟨3, [2], [2], []⟩ 2 ⟨2, false, 0, "boom"⟩
    (by decide) (by decide) rfl

/-- Claim C8: a progress delivery never modifies registry state, and its
only observable effect is to invoke the registered subscriber for its id
with exactly the delivered data; when no subscriber is registered for the
id (never registered, or already resolved and removed), it has no
observable effect at all, and it never settles the pending call. -/
theorem progress_delivery_semantics (s : BridgeState V) (id : Nat) (d : V) :
    (aegisProgress s id d).1 = s
    ∧ (aegisProgress s id d).2 =
        (if hasKey s.progressIds id then [Event.progressInvoked id d]
         else []) := by
  refine ⟨aegisProgress_fst s id d, ?_⟩
  unfold aegisProgress
  split <;> simp_all

/-- Claim C5: for every configured token set and every action string,
isAllowed returns true exactly when the tokens contain the wildcard, or
the action verbatim, or the substring of the action up to and not
including its first dot; in particular the token "dialog" permits the
action "dialog.message". -/
theorem allow_list_semantics (tokens : List String) (action : String) :
    (isAllowed (some tokens) action = true ↔
      ("*" ∈ tokens ∨ action ∈ tokens ∨
        String.mk (action.toList.takeWhile (fun c => c ≠ '.')) ∈ tokens))
    ∧ isAllowed (some ["dialog"]) "dialog.message" = true := by
  refine ⟨?_, by decide⟩
  by_cases h1 : "*" ∈ tokens <;> by_cases h2 : action ∈ tokens <;>
    simp [isAllowed, firstSegment, h1, h2]

/-- Claim C6: before any configure or expose call has set the allow list -
modelled by the configuration being absent - every action string is
permitted: isAllowed falls back to the default list containing only the
wildcard and returns true. -/
theorem default_config_allows_all (action : String) :
    isAllowed none action = true := rfl

/-- Claim C9: callback ids come from a single monotonically increasing
counter and are never reused: if one invocation allocates id1 and any later
invocation - after any number of intermediate bridge operations - allocates
id2, then id1 is strictly less than id2, and in particular the two ids are
distinct. -/
theorem callback_ids_never_reused (s : BridgeState V) (op1 op2 : Op V)
    (ops : List (Op V)) (id1 id2 : Nat)
    (h1 : allocates op1 s = some id1)
    (h2 : allocates op2 (run ops (step op1 s)) = some id2) :
    id1 < id2 ∧ id1 ≠ id2 := by
  obtain ⟨e1, e2⟩ := allocates_step h1
  obtain ⟨e3, _⟩ := allocates_step h2
  have hmono := run_callbackId_mono ops (step op1 s)
  rw [e2] at hmono
  constructor <;> omega

/-- Witness for claim C9: two back-to-back invoke calls from the initial
state receive ids 1 and 2. -/
theorem callback_ids_never_reused_witness : (1 : Nat) < 2 ∧ (1 : Nat) ≠ 2 :=
  callback_ids_never_reused (V := Nat) initialState
    (Op.opInvoke true "read" 0) (Op.opInvoke true "write" 0) [] 1 2
    (by decide) (by decide)

/-- Claim C10 counterexample: from a state whose pendingCallbacks already
contains the key 5 and whose counter will allocate 5 next, invoke completes
normally - the request is posted and Map.set silently replaces the
existing entry, leaving the key present - so the claim that registering
under an already registered id fails fatally is false on the code, which
has no failing path at all. -/
theorem register_existing_id_silent_cex :
    invoke true "read" (0 : Nat) (⟨4, [5], [], []⟩ : BridgeState Nat) =
      (⟨5, [5], [], []⟩, [Event.posted ⟨"read", 0, 5⟩]) := by decide

/-- Claim C10 (amended): registering a pending call under an id that is
already registered is silently accepted - Map.set overwrites the previous
entry and the call proceeds normally, nothing fails fatally; moreover, in
any state satisfying the counter invariant (every registered id is at most
the current counter value, true of all reachable states), the freshly
allocated id is never already registered in either Map, so the collision
cannot actually arise, and every bridge operation preserves the
invariant. -/
theorem register_fresh_under_invariant (s : BridgeState V) (op : Op V)
    (avail : Bool) (action : String) (payload : V)
    (hgood : goodCounter s = true) :
    hasKey s.pendingIds (s.callbackId + 1) = false
    ∧ hasKey s.progressIds (s.callbackId + 1) = false
    ∧ hasKey (invoke avail action payload s).1.pendingIds
        (s.callbackId + 1) = true
    ∧ goodCounter (step op s) = true := by
  have hp : allLe s.pendingIds s.callbackId = true := by
    simp only [goodCounter, Bool.and_eq_true] at hgood
    exact hgood.1
  have hq : allLe s.progressIds s.callbackId = true := by
    simp only [goodCounter, Bool.and_eq_true] at hgood
    exact hgood.2
  refine ⟨hasKey_fresh hp, hasKey_fresh hq, ?_, goodCounter_step op s hgood⟩
  rw [invoke_pendingIds]
  exact hasKey_mapInsert_self _ _

/-- Witness for claim C10 (amended) at the initial state with a concrete
invoke and a concrete next operation. -/
theorem register_fresh_under_invariant_witness :
    hasKey (initialState (V := Nat)).pendingIds 1 = false
    ∧ hasKey (initialState (V := Nat)).progressIds 1 = false
    ∧ hasKey (invoke true "read" (0 : Nat) initialState).1.pendingIds 1 = true
    ∧ goodCounter (step (Op.opInvoke true "write" (0 : Nat)) initialState) =
        true :=
  register_fresh_under_invariant initialState (Op.opInvoke true "write" 0)
    true "read" 0 (by decide)

end Claims

end AegisBridge
